import Mathlib

/-!
Verification of the cupbearer/abstractions repository: a shallow embedding of
the adversarial-example generation loop (`fgsm`, `attack`,
`AdversarialExampleDataset`), the data-transform pipeline (`AddInfoDict`,
`CornerPixelToWhite`, `GaussianNoise`, `get_transforms`), the classification
training step (`ClassificationTrainer.create_functions`) and the
`ToyFeaturesTask` configuration.

Numeric arrays are modelled over `ℚ`; images and batches are lists.  The
external autodiff library (jax/optax) is modelled by explicit function
parameters: `sce` stands for `optax.softmax_cross_entropy` applied to one
pair (logits row, label row), and gradient operators (`jax.value_and_grad`)
are parameters `gradFn`, with the library contract that the value component
of `value_and_grad` is the function evaluated at the point.
-/

namespace Cupbearer

/-! ## Shared numeric primitives (jnp / np counterparts) -/

/-- Model of `jnp.mean` of a 1-d array, modelled on lists of rationals. -/
def mean (xs : List ℚ) : ℚ := xs.sum / xs.length

/-- Model of `jnp.sign`, elementwise sign of a scalar. -/
def sign (x : ℚ) : ℚ := if 0 < x then 1 else if x < 0 then -1 else 0

/-- Model of `jax.nn.one_hot label n`: length-`n` vector with a 1 at index `label`. -/
def oneHot (label : ℕ) (n : ℕ) : List ℚ :=
  (List.range n).map (fun i => if i = label then 1 else 0)

/-- Model of `jnp.clip x 0 1`. -/
def clip01 (x : ℚ) : ℚ := max 0 (min x 1)

/-- Model of `jnp.argmax` over a 1-d array: index of the first occurrence of the
maximum (0 on the empty array). -/
def argmax (xs : List ℚ) : ℕ :=
  match xs with
  | [] => 0
  | x :: rest =>
    ((rest.enumFrom 1).foldl
      (fun best p => if best.2 < p.2 then p else best) (0, x)).1

/-- Model of `jnp.mean` of a boolean array (booleans cast to 0/1). -/
def meanBool (bs : List Bool) : ℚ :=
  mean (bs.map (fun b => if b then (1 : ℚ) else 0))

/-! ## C3: running-mean accumulation in the attack loop

The attack loop keeps `mean = (i * mean + x_i) / (i + 1)` for three
statistics, where `i` is the 0-based batch index.  `runMeanAux` is that loop
for a single statistic, starting from index `i` and accumulator `m`. -/

/-- The loop `for i, x in enumerate(xs): m = (i * m + x) / (i + 1)`
starting from batch index `i` and current accumulator `m`. -/
def runMeanAux (i : ℕ) (m : ℚ) : List ℚ → ℚ
  | [] => m
  | x :: rest => runMeanAux (i + 1) ((i * m + x) / (i + 1)) rest

/-- The running mean maintained by the attack loop over per-batch values,
starting (as in `attack`) from `mean = 0` at batch index 0. -/
def runningMean (xs : List ℚ) : ℚ := runMeanAux 0 0 xs

/-- Lines 112-136 of `adversarial_examples.attack` restricted to the three
statistics: starting from `mean_original_loss = mean_new_loss =
mean_new_accuracy = 0`, batch `i` with per-batch values
`(original_loss, new_loss, new_accuracy)` performs
`mean = (i * mean + x_i) / (i + 1)` on each statistic. -/
def attackMeansAux (i : ℕ) (mo mn ma : ℚ) :
    List (ℚ × ℚ × ℚ) → ℚ × ℚ × ℚ
  | [] => (mo, mn, ma)
  | b :: rest =>
    attackMeansAux (i + 1) ((i * mo + b.1) / (i + 1))
      ((i * mn + b.2.1) / (i + 1)) ((i * ma + b.2.2) / (i + 1)) rest

/-- The three running means after the attack loop has processed the given
per-batch `(original_loss, new_loss, new_accuracy)` values. -/
def attackMeans (xs : List (ℚ × ℚ × ℚ)) : ℚ × ℚ × ℚ :=
  attackMeansAux 0 0 0 0 xs

/-! ## C5: ToyFeaturesTask train/anomalous data configuration -/

/-- Model of `ToyFeaturesConfig(correlated=..., noise=...)` from
`cupbearer.data.toy_ambiguous_features` (only its constructor arguments
matter here). -/
structure ToyFeaturesConfig where
  correlated : Bool
  noise : ℚ
deriving DecidableEq

/-- The `ToyFeaturesTask` dataclass: `run_path` is irrelevant to the data
configurations, `noise` defaults to 0.1 in the source. -/
structure ToyFeaturesTask where
  noise : ℚ
deriving DecidableEq

/-- Model of `ToyFeaturesTask._init_train_data`:
`ToyFeaturesConfig(correlated=True, noise=self.noise)`. -/
def ToyFeaturesTask.initTrainData (t : ToyFeaturesTask) : ToyFeaturesConfig :=
  { correlated := true, noise := t.noise }

/-- Model of `ToyFeaturesTask._get_anomalous_test_data`:
`ToyFeaturesConfig(correlated=False, noise=self.noise)`. -/
def ToyFeaturesTask.getAnomalousTestData (t : ToyFeaturesTask) :
    ToyFeaturesConfig :=
  { correlated := false, noise := t.noise }

/-! ## C1: the fgsm function

`Batch` stands for a 2-d jnp array: a batch of flattened images, or of
logits rows.  `sce` is `optax.softmax_cross_entropy` on one
(logits row, label row) pair; `gradFn` is `jax.grad` restricted to the loss
closure; `jax.value_and_grad(loss)(inputs)` is `(loss inputs,
gradFn loss inputs)`, using the library contract that the value component
is the function evaluated at the point. -/

abbrev Batch := List (List ℚ)

/-- Elementwise `inputs + eps * jnp.sign grad` over a batch. -/
def addScaledSign (eps : ℚ) (inputs grad : Batch) : Batch :=
  inputs.zipWith (fun xr gr => xr.zipWith (fun x g => x + eps * sign g) gr)
    grad

/-- The body of `fgsm`, lines 64-73 of `adversarial_examples.py`.  The inner
closure mirrors the source: `logits = forward_fn(x)`,
`one_hot = jax.nn.one_hot(labels, logits.shape[-1])`,
`losses = optax.softmax_cross_entropy(logits, one_hot)`, `jnp.mean(losses)`;
then one `value_and_grad` evaluation and the signed step. -/
def fgsm (sce : List ℚ → List ℚ → ℚ)
    (gradFn : (Batch → ℚ) → Batch → Batch)
    (forward : Batch → Batch) (inputs : Batch) (labels : List ℕ)
    (eps : ℚ) : Batch × ℚ :=
  let loss : Batch → ℚ := fun x =>
    let logits := forward x
    let one_hot := labels.map (fun l => oneHot l (logits.headD []).length)
    let lossRows := (logits.zip one_hot).map (fun p => sce p.1 p.2)
    mean lossRows
  let value := loss inputs
  let grad := gradFn loss inputs
  (addScaledSign eps inputs grad, value)

/-- Spec-side reading of the loss: the mean softmax cross-entropy of
`forward x` against the one-hot encodings of the labels (one-hot width
taken from the last logits dimension). -/
def meanSCELoss (sce : List ℚ → List ℚ → ℚ) (forward : Batch → Batch)
    (x : Batch) (labels : List ℕ) : ℚ :=
  mean (((forward x).zip labels).map
    (fun p => sce p.1 (oneHot p.2 ((forward x).headD []).length)))

/-! ## C6: ClassificationTrainer.create_functions / train_step

`applyFn` embeds `state.apply_fn` (the flax model applied to a parameter
tree `P`); `gradParams` embeds `jax.grad` with respect to the parameters;
`applyGradients` embeds `state.apply_gradients(grads=...)`, i.e. one optax
optimizer step producing the next training state. -/

structure TrainState (P O : Type) where
  params : P
  optState : O

/-- The `losses` closure of `ClassificationTrainer.create_functions`:
returns `(loss, accuracy)` for the given parameters and batch. -/
def losses (sce : List ℚ → List ℚ → ℚ) {P : Type}
    (applyFn : P → Batch → Batch) (numClasses : ℕ) (params : P)
    (images : Batch) (labels : List ℕ) : ℚ × ℚ :=
  let logits := applyFn params images
  let one_hot := labels.map (fun l => oneHot l numClasses)
  let lossRows := (logits.zip one_hot).map (fun p => sce p.1 p.2)
  let loss := mean lossRows
  let correct := (logits.zip labels).map (fun p => argmax p.1 == p.2)
  let accuracy := meanBool correct
  (loss, accuracy)

/-- Model of `train_step` from `ClassificationTrainer.create_functions`:
`value_and_grad(loss_fn, has_aux=True)` over the first component of
`losses`, a recomputation of the metrics at the pre-update parameters,
then `state.apply_gradients(grads=grads)`. -/
def train_step (sce : List ℚ → List ℚ → ℚ) {P O G : Type}
    (applyFn : P → Batch → Batch) (numClasses : ℕ)
    (gradParams : (P → ℚ) → P → G)
    (applyGradients : TrainState P O → G → TrainState P O)
    (state : TrainState P O) (images : Batch) (labels : List ℕ) :
    TrainState P O × ℚ × ℚ :=
  let loss_fn : P → ℚ × ℚ :=
    fun params => losses sce applyFn numClasses params images labels
  let grads := gradParams (fun params => (loss_fn params).1) state.params
  let metrics := losses sce applyFn numClasses state.params images labels
  let newState := applyGradients state grads
  (newState, metrics)

/-- Spec-side reading of the training loss: the mean softmax cross-entropy
of the logits at `params` against the one-hot labels. -/
def trainLoss (sce : List ℚ → List ℚ → ℚ) {P : Type}
    (applyFn : P → Batch → Batch) (numClasses : ℕ) (params : P)
    (images : Batch) (labels : List ℕ) : ℚ :=
  mean (((applyFn params images).zip labels).map
    (fun p => sce p.1 (oneHot p.2 numClasses)))

/-- Spec-side reading of the accuracy: the fraction of predictions whose
argmax equals the label. -/
def fractionCorrect {P : Type} (applyFn : P → Batch → Batch) (params : P)
    (images : Batch) (labels : List ℕ) : ℚ :=
  let paired := (applyFn params images).zip labels
  (paired.countP (fun p => argmax p.1 == p.2) : ℚ) / paired.length

/-! ## C2: CornerPixelToWhite

PIL images are grids of grayscale pixel values; `putpixel (x, y) v` writes
column x of row y.  The single `torch.rand(1)` draw of `__call__` is the
explicit parameter `r`.  The info dict holds the keys that the transforms
of this pipeline ever store. -/

structure PILImage where
  rows : List (List ℕ)
deriving DecidableEq

/-- Number of rows; the second component of PIL `img.size`. -/
def PILImage.height (img : PILImage) : ℕ := img.rows.length

/-- Row length; the first component of PIL `img.size`. -/
def PILImage.width (img : PILImage) : ℕ := (img.rows.headD []).length

/-- All rows have the declared width (true of any actual PIL image). -/
def PILImage.wellFormed (img : PILImage) : Prop :=
  ∀ r ∈ img.rows, r.length = img.width

instance (img : PILImage) : Decidable img.wellFormed := by
  unfold PILImage.wellFormed
  infer_instance

/-- Model of `img.putpixel((x, y), v)`. -/
def PILImage.putpixel (img : PILImage) (x y v : ℕ) : PILImage :=
  ⟨img.rows.set y ((img.rows.getD y []).set x v)⟩

/-- Model of `img.getpixel((x, y))`, `none` when out of range. -/
def PILImage.getpixel (img : PILImage) (x y : ℕ) : Option ℕ :=
  (img.rows[y]?).bind (fun row => row[x]?)

inductive Corner where
  | topLeft
  | topRight
  | bottomLeft
  | bottomRight
deriving DecidableEq

/-- The keys the pipeline transforms store in the info dict. -/
structure Info where
  original_target : ℕ
  backdoored : Option Bool := none
  original_img : Option PILImage := none
deriving DecidableEq

/-- Model of `AddInfoDict.__call__`: starts the info dict, storing the original
target. -/
def AddInfoDict.call (sample : PILImage × ℕ) : PILImage × ℕ × Info :=
  (sample.1, sample.2, { original_target := sample.2 })

structure CornerPixelToWhite where
  p_backdoor : ℚ
  corner : Corner := Corner.topLeft
  target_class : ℕ := 0
  return_original : Bool := false

/-- Model of `CornerPixelToWhite.__call__` with the `torch.rand(1)` draw `r` made
explicit: when `r > p_backdoor` nothing happens apart from recording
`backdoored = False`; otherwise the configured corner pixel is set to 255
and the target is replaced by `target_class`. -/
def CornerPixelToWhite.call (t : CornerPixelToWhite) (r : ℚ)
    (sample : PILImage × ℕ × Info) : PILImage × ℕ × Info :=
  let (img, target, info) := sample
  if t.p_backdoor < r then
    let info1 := { info with backdoored := some false }
    let info2 := if t.return_original then
      { info1 with original_img := some img } else info1
    (img, target, info2)
  else
    let info1 := { info with backdoored := some true }
    let info2 := if t.return_original then
      { info1 with original_img := some img } else info1
    let w := img.width
    let h := img.height
    let img2 :=
      match t.corner with
      | Corner.topLeft => img.putpixel 0 0 255
      | Corner.topRight => img.putpixel (w - 1) 0 255
      | Corner.bottomLeft => img.putpixel 0 (h - 1) 255
      | Corner.bottomRight => img.putpixel (w - 1) (h - 1) 255
    (img2, t.target_class, info2)

/-- The pixel coordinates addressed by each corner on a w-by-h image. -/
def cornerCoords (c : Corner) (w h : ℕ) : ℕ × ℕ :=
  match c with
  | Corner.topLeft => (0, 0)
  | Corner.topRight => (w - 1, 0)
  | Corner.bottomLeft => (0, h - 1)
  | Corner.bottomRight => (w - 1, h - 1)

/-! ## C7: GaussianNoise

After `to_numpy` the image is a 2-d float array, modelled as `Batch`
(list of rows of rationals).  `np.random.normal(0, std, img.shape)` draws
an array shaped like `img`; `rng i j` is the standard-normal draw used at
position (i, j), scaled by `std`. -/

structure GaussianNoise where
  std : ℚ

/-- Model of `np.random.normal(0, std, shape)`: an array of draws with exactly the
shape of the given array. -/
def npRandomNormal (rng : ℕ → ℕ → ℚ) (std : ℚ) (shape : Batch) : Batch :=
  (List.range shape.length).map (fun i =>
    (List.range (shape.getD i []).length).map (fun j => std * rng i j))

/-- Elementwise `img + noise` on 2-d arrays of equal shape. -/
def addNP (img noise : Batch) : Batch :=
  img.zipWith (fun r nr => r.zipWith (fun a b => a + b) nr) noise

/-- Model of `GaussianNoise.__call__` with the normal draws made explicit: adds
shaped noise to the image and passes target and info through.  The target
and info types are parameters because the transform never inspects them. -/
def GaussianNoise.call {T I : Type} (t : GaussianNoise) (rng : ℕ → ℕ → ℚ)
    (sample : Batch × T × I) : Batch × T × I :=
  let (img, target, info) := sample
  let noise := npRandomNormal rng t.std img
  (addNP img noise, target, info)

/-! ## C4: get_transforms

The transforms config maps a transform name to its configuration section:
an optional `enabled` flag plus the keyword arguments passed to the
transform constructor.  The resulting pipeline entries are tagged with the
constructor arguments they were built from. -/

inductive TransformName where
  | pixel_backdoor
  | noise
  | noise_backdoor
deriving DecidableEq

structure TransformConfig where
  enabled : Option Bool := none
  kwargs : List ℚ := []
deriving DecidableEq

/-- The transform objects `get_transforms` can construct.
`noiseBackdoor` is modelled from the spec: the `NoiseBackdoor` class that
`data.get_transforms` references is not among the sources; only its
construction from its config section matters here. -/
inductive PipelineTransform where
  | addInfoDict
  | cornerPixelToWhite (kwargs : List ℚ)
  | toNumpy
  | gaussianNoise (kwargs : List ℚ)
  | noiseBackdoor (kwargs : List ℚ)
deriving DecidableEq

/-- The `process_transform` closure of `get_transforms`: nothing when the
name is missing from the config or the section disables the transform;
otherwise the transform built from the section without its `enabled`
key. -/
def processTransform (config : TransformName → Option TransformConfig)
    (name : TransformName) (mk : List ℚ → PipelineTransform) :
    List PipelineTransform :=
  match config name with
  | none => []
  | some tc =>
    match tc.enabled with
    | some false => []
    | _ => [mk tc.kwargs]

/-- Model of `get_transforms`, lines 169-203 of `data.py`: `AddInfoDict`, then the
PIL-level transforms, then `to_numpy`, then the array-level transforms. -/
def get_transforms (config : TransformName → Option TransformConfig) :
    List PipelineTransform :=
  [PipelineTransform.addInfoDict]
    ++ processTransform config TransformName.pixel_backdoor
        PipelineTransform.cornerPixelToWhite
    ++ [PipelineTransform.toNumpy]
    ++ processTransform config TransformName.noise PipelineTransform.gaussianNoise
    ++ processTransform config TransformName.noise_backdoor
        PipelineTransform.noiseBackdoor

/-- A concrete transforms config: enabled pixel backdoor, a noise section
without the enabled key, and a disabled noise backdoor. -/
def configWitness : TransformName → Option TransformConfig := fun name =>
  match name with
  | TransformName.pixel_backdoor =>
    some { enabled := some true, kwargs := [1/2] }
  | TransformName.noise => some { kwargs := [3/10] }
  | TransformName.noise_backdoor => some { enabled := some false }

/-! ## C8, C9: the attack batch loop and its error path

The loop body of `attack` (lines 116-139): one FGSM step per batch,
clipping to [0, 1], appending to the saved examples, statistics on the
clipped batch, running-mean updates, and the `max_examples` early break
(`cfg.max_examples` is falsy when 0).  The post-loop code (lines 141-156)
either raises when the mean adversarial accuracy is still above 0.1, or
produces the two files: the concatenated example array and the statistics
record.  Both files exist only inside the `ok` payload, so nothing is
written on the error path. -/

/-- Elementwise `jnp.clip(batch, 0, 1)` on a 2-d array. -/
def clipBatch (b : Batch) : Batch := b.map (fun row => row.map clip01)

structure AttackConfig where
  eps : ℚ
  maxExamples : ℕ
deriving DecidableEq

/-- Contents of the `adv_examples.json` statistics file. -/
structure AttackStats where
  originalLoss : ℚ
  newLoss : ℚ
  newAccuracy : ℚ
  eps : ℚ
  numExamples : ℕ
deriving DecidableEq

/-- The `RuntimeError` of the failed attack, carrying the offending
accuracy. -/
inductive AttackError where
  | attackFailed (newAccuracy : ℚ)
deriving DecidableEq

/-- State carried through the batch loop: saved clipped batches in order,
`num_examples`, and the three running means. -/
structure AttackLoopState where
  advExamples : List Batch
  numExamples : ℕ
  meanOriginalLoss : ℚ
  meanNewLoss : ℚ
  meanNewAccuracy : ℚ

/-- Lines 116-139 of `attack`: the batch loop, with `i` the enumeration
index. -/
def attackLoop (sce : List ℚ → List ℚ → ℚ)
    (gradFn : (Batch → ℚ) → Batch → Batch) (forward : Batch → Batch)
    (cfg : AttackConfig) (st : AttackLoopState) (i : ℕ) :
    List (Batch × List ℕ) → AttackLoopState
  | [] => st
  | (inputs, labels) :: rest =>
    let res := fgsm sce gradFn forward inputs labels cfg.eps
    let advInputs := clipBatch res.1
    let originalLoss := res.2
    let numExamples := st.numExamples + advInputs.length
    let newLogits := forward advInputs
    let newAccuracy :=
      meanBool ((newLogits.zip labels).map (fun p => argmax p.1 == p.2))
    let newLoss := mean ((newLogits.zip labels).map
      (fun p => sce p.1 (oneHot p.2 (newLogits.headD []).length)))
    let st2 : AttackLoopState :=
      { advExamples := st.advExamples ++ [advInputs]
        numExamples := numExamples
        meanOriginalLoss := (i * st.meanOriginalLoss + originalLoss) / (i + 1)
        meanNewLoss := (i * st.meanNewLoss + newLoss) / (i + 1)
        meanNewAccuracy := (i * st.meanNewAccuracy + newAccuracy) / (i + 1) }
    if cfg.maxExamples ≠ 0 ∧ cfg.maxExamples ≤ numExamples then st2
    else attackLoop sce gradFn forward cfg st2 (i + 1) rest

/-- The loop starts with no examples and all means 0. -/
def initialAttackState : AttackLoopState :=
  { advExamples := [], numExamples := 0, meanOriginalLoss := 0,
    meanNewLoss := 0, meanNewAccuracy := 0 }

/-- Lines 109-156 of `attack` once the model and dataloader are set up:
run the batch loop; raise when the mean adversarial accuracy exceeds 0.1;
otherwise produce the concatenated saved array and the statistics
record. -/
def attack (sce : List ℚ → List ℚ → ℚ)
    (gradFn : (Batch → ℚ) → Batch → Batch) (forward : Batch → Batch)
    (cfg : AttackConfig) (batches : List (Batch × List ℕ)) :
    Except AttackError (Batch × AttackStats) :=
  let st := attackLoop sce gradFn forward cfg initialAttackState 0 batches
  if 1/10 < st.meanNewAccuracy then
    Except.error (AttackError.attackFailed st.meanNewAccuracy)
  else
    Except.ok (st.advExamples.flatten,
      { originalLoss := st.meanOriginalLoss, newLoss := st.meanNewLoss,
        newAccuracy := st.meanNewAccuracy, eps := cfg.eps,
        numExamples := st.numExamples })

/-! ## C10: AdversarialExampleDataset

The constructor after the stored examples have been loaded (`utils.load`
and the fallback attack subprocess are external storage/process concerns):
an omitted `num_examples` defaults to the number of stored examples, and a
`ValueError` is raised when fewer examples exist than requested.
`__getitem__` checks its index against `num_examples` before indexing the
stored array. -/

inductive DatasetError where
  | valueError (numStored numRequested : ℕ)
  | indexError (idx : ℕ)
deriving DecidableEq

structure AdversarialExampleDataset (α : Type) where
  examples : List α
  numExamples : ℕ
deriving DecidableEq

/-- Model of `AdversarialExampleDataset.__init__` given the loaded
examples. -/
def mkAdversarialExampleDataset {α : Type} (examples : List α)
    (numExamples : Option ℕ) :
    Except DatasetError (AdversarialExampleDataset α) :=
  let n := numExamples.getD examples.length
  if examples.length < n then
    Except.error (DatasetError.valueError examples.length n)
  else Except.ok { examples := examples, numExamples := n }

/-- Model of `__len__`. -/
def AdversarialExampleDataset.len {α : Type}
    (d : AdversarialExampleDataset α) : ℕ := d.numExamples

/-- Model of `__getitem__`: the explicit bound check against
`num_examples`, then indexing into the stored array (which itself errors
on an out-of-range index). -/
def AdversarialExampleDataset.getItem {α : Type}
    (d : AdversarialExampleDataset α) (idx : ℕ) : Except DatasetError α :=
  if d.numExamples ≤ idx then Except.error (DatasetError.indexError idx)
  else
    match d.examples[idx]? with
    | some x => Except.ok x
    | none => Except.error (DatasetError.indexError idx)

/-! ## Theorems: the claims settled against the embedding -/

theorem runMeanAux_eq (xs : List ℚ) :
    ∀ (i : ℕ) (m : ℚ), 0 < i + xs.length →
      runMeanAux i m xs = (i * m + xs.sum) / (i + xs.length) := by
  induction xs with
  | nil =>
    intro i m hpos
    simp only [List.length_nil, Nat.add_zero] at hpos
    have hi : (i : ℚ) ≠ 0 := Nat.cast_ne_zero.mpr (by omega)
    simp only [runMeanAux, List.sum_nil, List.length_nil, Nat.cast_zero,
      add_zero]
    field_simp
  | cons x rest ih =>
    intro i m _
    have hstep : runMeanAux i m (x :: rest) =
        runMeanAux (i + 1) ((i * m + x) / (i + 1)) rest := rfl
    have hpos : 0 < (i + 1) + rest.length := by omega
    rw [hstep, ih (i + 1) ((i * m + x) / (i + 1)) hpos]
    have hne : ((i : ℚ) + 1) ≠ 0 := by positivity
    have hne2 : ((i : ℚ) + 1 + rest.length) ≠ 0 := by positivity
    push_cast
    field_simp
    ring

theorem attackMeansAux_eq (xs : List (ℚ × ℚ × ℚ)) :
    ∀ (i : ℕ) (mo mn ma : ℚ),
      attackMeansAux i mo mn ma xs =
        (runMeanAux i mo (xs.map (fun b => b.1)),
         runMeanAux i mn (xs.map (fun b => b.2.1)),
         runMeanAux i ma (xs.map (fun b => b.2.2))) := by
  induction xs with
  | nil => intro i mo mn ma; rfl
  | cons b rest ih =>
    intro i mo mn ma
    simp only [attackMeansAux, List.map_cons, runMeanAux]
    exact ih (i + 1) _ _ _

/-- C3: for every sequence of n >= 1 processed batches, the running updates
`mean = (i * mean + x_i) / (i + 1)` performed in the attack loop leave
`mean_original_loss`, `mean_new_loss` and `mean_new_accuracy` equal to the
unweighted arithmetic mean of the corresponding per-batch values
x_0 .. x_{n-1}.  Batch sizes do not enter the update, so the result is
independent of them. -/
theorem attack_running_means_are_arithmetic_means
    (xs : List (ℚ × ℚ × ℚ)) (h : xs ≠ []) :
    attackMeans xs =
      (mean (xs.map (fun b => b.1)),
       mean (xs.map (fun b => b.2.1)),
       mean (xs.map (fun b => b.2.2))) := by
  have hlen : 0 < xs.length := List.length_pos.mpr h
  have hm : ∀ f : ℚ × ℚ × ℚ → ℚ,
      runMeanAux 0 0 (xs.map f) = mean (xs.map f) := by
    intro f
    have hpos : 0 < 0 + (xs.map f).length := by
      simpa using hlen
    rw [runMeanAux_eq (xs.map f) 0 0 hpos]
    simp [mean]
  rw [attackMeans, attackMeansAux_eq xs 0 0 0 0, hm, hm, hm]

/-- Witness for C3 at the concrete batch statistics
`[(1, 2, 3), (3, 4, 5)]`. -/
theorem attack_running_means_witness :
    attackMeans [((1 : ℚ), (2 : ℚ), (3 : ℚ)), (3, 4, 5)] = (2, 3, 4) := by
  have h := attack_running_means_are_arithmetic_means
    [((1 : ℚ), (2 : ℚ), (3 : ℚ)), (3, 4, 5)] (by decide)
  rw [h]
  norm_num [mean]

/-- C5: for every `ToyFeaturesTask` with noise parameter s, the normal
training data configuration has correlated features and the anomalous test
data configuration has decorrelated features, and both use the same noise
value s. -/
theorem toyFeaturesTask_train_correlated_anomalous_decorrelated
    (t : ToyFeaturesTask) :
    t.initTrainData.correlated = true ∧
    t.getAnomalousTestData.correlated = false ∧
    t.initTrainData.noise = t.noise ∧
    t.getAnomalousTestData.noise = t.noise :=
  ⟨rfl, rfl, rfl, rfl⟩

theorem fgsm_loss_closure (sce : List ℚ → List ℚ → ℚ)
    (forward : Batch → Batch) (labels : List ℕ) :
    (fun x : Batch =>
      let logits := forward x
      let one_hot := labels.map (fun l => oneHot l (logits.headD []).length)
      let lossRows := (logits.zip one_hot).map (fun p => sce p.1 p.2)
      mean lossRows) =
    (fun x => meanSCELoss sce forward x labels) := by
  funext x
  simp only [meanSCELoss, List.zip_map_right, List.map_map]
  rfl

/-- C1: for every batch of inputs and labels and every eps, `fgsm` returns
the pair `(inputs + eps * sign g, L)`, where `L` is the mean softmax
cross-entropy loss of `forward_fn(inputs)` against the one-hot labels and
`g` is the gradient of that mean loss with respect to the inputs; the
right-hand side contains a single `gradFn` application, so the perturbation
comes from one gradient evaluation with no iteration. -/
theorem fgsm_single_signed_gradient_step (sce : List ℚ → List ℚ → ℚ)
    (gradFn : (Batch → ℚ) → Batch → Batch) (forward : Batch → Batch)
    (inputs : Batch) (labels : List ℕ) (eps : ℚ) :
    fgsm sce gradFn forward inputs labels eps =
      (addScaledSign eps inputs
        (gradFn (fun x => meanSCELoss sce forward x labels) inputs),
       meanSCELoss sce forward inputs labels) := by
  unfold fgsm
  rw [fgsm_loss_closure sce forward labels]

theorem meanBool_eq_count_div (bs : List Bool) :
    meanBool bs = (bs.count true : ℚ) / bs.length := by
  unfold meanBool mean
  rw [List.length_map]
  congr 1
  induction bs with
  | nil => simp
  | cons b rest ih =>
    cases b
    · simpa using ih
    · simp [ih, List.count_cons]
      ring

theorem losses_components (sce : List ℚ → List ℚ → ℚ) {P : Type}
    (applyFn : P → Batch → Batch) (numClasses : ℕ) (params : P)
    (images : Batch) (labels : List ℕ) :
    losses sce applyFn numClasses params images labels =
      (trainLoss sce applyFn numClasses params images labels,
       fractionCorrect applyFn params images labels) := by
  unfold losses trainLoss fractionCorrect
  dsimp only
  refine Prod.ext ?_ ?_
  · simp only [List.zip_map_right, List.map_map]
    rfl
  · show meanBool _ = _
    rw [meanBool_eq_count_div, List.length_map]
    congr 1
    norm_cast
    simp [List.count, List.countP_map, Function.comp_def]

/-- C6: for every training state and batch, `train_step` returns the state
obtained by applying the optimizer to the gradient of the mean softmax
cross-entropy loss with respect to the parameters, together with metrics
(loss, accuracy) computed using the parameters from before the gradient
update, accuracy being the fraction of argmax-correct predictions. -/
theorem train_step_optimizer_step_and_preupdate_metrics
    (sce : List ℚ → List ℚ → ℚ) {P O G : Type}
    (applyFn : P → Batch → Batch) (numClasses : ℕ)
    (gradParams : (P → ℚ) → P → G)
    (applyGradients : TrainState P O → G → TrainState P O)
    (state : TrainState P O) (images : Batch) (labels : List ℕ) :
    train_step sce applyFn numClasses gradParams applyGradients state
        images labels =
      (applyGradients state
        (gradParams
          (fun p => trainLoss sce applyFn numClasses p images labels)
          state.params),
       trainLoss sce applyFn numClasses state.params images labels,
       fractionCorrect applyFn state.params images labels) := by
  unfold train_step
  have hfst : (fun params =>
      (losses sce applyFn numClasses params images labels).1) =
      (fun p => trainLoss sce applyFn numClasses p images labels) := by
    funext p
    rw [losses_components]
  dsimp only
  rw [hfst, losses_components]

theorem PILImage.getpixel_putpixel (img : PILImage) (x y v : ℕ)
    (hwf : img.wellFormed) (hx : x < img.width) (hy : y < img.height) :
    (img.putpixel x y v).getpixel x y = some v := by
  have hy' : y < img.rows.length := hy
  have hrow : img.rows.getD y [] = img.rows[y] :=
    List.getD_eq_getElem img.rows [] hy'
  have hlen : (img.rows.getD y []).length = img.width := by
    rw [hrow]
    exact hwf _ (img.rows.getElem_mem hy')
  unfold PILImage.putpixel PILImage.getpixel
  have hset : (img.rows.set y ((img.rows.getD y []).set x v))[y]? =
      some ((img.rows.getD y []).set x v) :=
    List.getElem?_set_self hy'
  simp only [hset, Option.bind_some]
  exact List.getElem?_set_self (by rw [hlen]; exact hx)

/-- C2: for every sample (img, target, info) and every random draw r: if
`r <= p_backdoor`, `CornerPixelToWhite.__call__` sets the pixel of the
configured corner to white (255), returns the fixed `target_class` in place
of the original target, and sets `info.backdoored` to True; if
`r > p_backdoor`, it returns image and target unchanged and sets
`info.backdoored` to False.  (The image must be a well-formed nonempty
pixel grid for the corner pixel to exist.) -/
theorem cornerPixelToWhite_call_cases (t : CornerPixelToWhite)
    (img : PILImage) (target : ℕ) (info : Info) (r : ℚ)
    (hwf : img.wellFormed) (hw : 0 < img.width) (hh : 0 < img.height) :
    (r ≤ t.p_backdoor →
      ((t.call r (img, target, info)).1.getpixel
          (cornerCoords t.corner img.width img.height).1
          (cornerCoords t.corner img.width img.height).2 = some 255 ∧
       (t.call r (img, target, info)).2.1 = t.target_class ∧
       (t.call r (img, target, info)).2.2.backdoored = some true)) ∧
    (t.p_backdoor < r →
      ((t.call r (img, target, info)).1 = img ∧
       (t.call r (img, target, info)).2.1 = target ∧
       (t.call r (img, target, info)).2.2.backdoored = some false)) := by
  constructor
  · intro hle
    have hcond : ¬ t.p_backdoor < r := not_lt.mpr hle
    unfold CornerPixelToWhite.call
    simp only [hcond, if_false]
    refine ⟨?_, trivial, ?_⟩
    · cases t.corner <;>
        exact PILImage.getpixel_putpixel img _ _ 255 hwf (by omega) (by omega)
    · cases t.return_original <;> rfl
  · intro hgt
    unfold CornerPixelToWhite.call
    simp only [hgt, if_true]
    refine ⟨trivial, trivial, ?_⟩
    cases t.return_original <;> rfl

/-- Witness for C2: a concrete 2-by-2 image, p_backdoor = 1/2, both a draw
below the threshold (backdoor applied) and one above it (sample
unchanged). -/
theorem cornerPixelToWhite_call_witness :
    (let t : CornerPixelToWhite :=
      { p_backdoor := 1/2, corner := Corner.bottomRight, target_class := 7 }
     let img : PILImage := ⟨[[1, 2], [3, 4]]⟩
     let info : Info := { original_target := 5 }
     (t.call (1/4) (img, 5, info)).1.getpixel 1 1 = some 255 ∧
     (t.call (1/4) (img, 5, info)).2.1 = 7 ∧
     (t.call (1/4) (img, 5, info)).2.2.backdoored = some true ∧
     (t.call (3/4) (img, 5, info)).1 = img ∧
     (t.call (3/4) (img, 5, info)).2.1 = 5 ∧
     (t.call (3/4) (img, 5, info)).2.2.backdoored = some false) := by
  have h := cornerPixelToWhite_call_cases
    { p_backdoor := 1/2, corner := Corner.bottomRight, target_class := 7 }
    ⟨[[1, 2], [3, 4]]⟩ 5 { original_target := 5 } (1/4)
    (by decide) (by decide) (by decide)
  have h2 := cornerPixelToWhite_call_cases
    { p_backdoor := 1/2, corner := Corner.bottomRight, target_class := 7 }
    ⟨[[1, 2], [3, 4]]⟩ 5 { original_target := 5 } (3/4)
    (by decide) (by decide) (by decide)
  obtain ⟨ha, hb, hc⟩ := h.1 (by norm_num)
  obtain ⟨hd, he, hf⟩ := h2.2 (by norm_num)
  exact ⟨ha, hb, hc, hd, he, hf⟩

theorem npRandomNormal_shape (rng : ℕ → ℕ → ℚ) (std : ℚ) (img : Batch) :
    (npRandomNormal rng std img).map List.length = img.map List.length := by
  apply List.ext_getElem
  · simp [npRandomNormal]
  · intro n h1 h2
    simp only [npRandomNormal, List.getElem_map, List.getElem_range,
      List.length_map, List.length_range] at h1 h2 ⊢
    rw [List.getD_eq_getElem img [] (by simpa using h2)]

/-- C7: for every sample (img, target, info), `GaussianNoise.__call__`
returns a triple whose image component is the input image plus an
elementwise noise array of the same shape (same row count and same row
lengths), while the target and the info dict are returned unchanged. -/
theorem gaussianNoise_adds_noise_frame {T I : Type} (t : GaussianNoise)
    (rng : ℕ → ℕ → ℚ) (img : Batch) (target : T) (info : I) :
    ∃ noise : Batch,
      noise.map List.length = img.map List.length ∧
      t.call rng (img, target, info) = (addNP img noise, target, info) :=
  ⟨npRandomNormal rng t.std img, npRandomNormal_shape rng t.std img, rfl⟩

theorem processTransform_of_present {config : TransformName → Option TransformConfig}
    {name : TransformName} {tc : TransformConfig}
    (mk : List ℚ → PipelineTransform)
    (hc : config name = some tc) (he : tc.enabled ≠ some false) :
    processTransform config name mk = [mk tc.kwargs] := by
  unfold processTransform
  rw [hc]
  rcases h : tc.enabled with _ | b
  · simp [h]
  · cases b
    · exact absurd h he
    · simp [h]

theorem processTransform_of_disabled
    {config : TransformName → Option TransformConfig} {name : TransformName}
    {tc : TransformConfig} (mk : List ℚ → PipelineTransform)
    (hc : config name = some tc) (he : tc.enabled = some false) :
    processTransform config name mk = [] := by
  unfold processTransform
  rw [hc]
  simp [he]

theorem mem_processTransform {config : TransformName → Option TransformConfig}
    {name : TransformName} {mk : List ℚ → PipelineTransform}
    {x : PipelineTransform} (h : x ∈ processTransform config name mk) :
    ∃ kw, x = mk kw := by
  unfold processTransform at h
  split at h
  · simp at h
  · split at h
    · simp at h
    · simp at h
      exact ⟨_, h⟩

theorem getElem?_middle (xs ys : List PipelineTransform)
    (y : PipelineTransform) :
    (xs ++ y :: ys)[xs.length]? = some y := by
  rw [List.getElem?_append_right (Nat.le_refl xs.length)]
  simp

theorem getElem?_after_middle (xs ys : List PipelineTransform)
    (y : PipelineTransform) :
    (xs ++ y :: ys)[xs.length + 1]? = ys[0]? := by
  rw [List.getElem?_append_right (Nat.le_succ_of_le (Nat.le_refl _))]
  simp

/-- C4: for every configuration mapping, `get_transforms` returns a list
that begins with `AddInfoDict`, contains the enabled PIL-level backdoor
transform (`pixel_backdoor`) at an index before an occurrence of the
`to_numpy` conversion, contains the enabled array-level noise transforms
(`noise`, `noise_backdoor`) at indices after an occurrence of `to_numpy`,
and omits any transform whose config section sets `enabled` to False. -/
theorem get_transforms_pipeline_order
    (config : TransformName → Option TransformConfig) :
    (get_transforms config).head? = some PipelineTransform.addInfoDict ∧
    (∀ tc, config TransformName.pixel_backdoor = some tc → tc.enabled ≠ some false →
      ∃ i j : ℕ, i < j ∧
        (get_transforms config)[i]? =
          some (PipelineTransform.cornerPixelToWhite tc.kwargs) ∧
        (get_transforms config)[j]? = some PipelineTransform.toNumpy) ∧
    (∀ tc, config TransformName.noise = some tc → tc.enabled ≠ some false →
      ∃ i j : ℕ, i < j ∧
        (get_transforms config)[i]? = some PipelineTransform.toNumpy ∧
        (get_transforms config)[j]? =
          some (PipelineTransform.gaussianNoise tc.kwargs)) ∧
    (∀ tc, config TransformName.noise_backdoor = some tc → tc.enabled ≠ some false →
      ∃ i j : ℕ, i < j ∧
        (get_transforms config)[i]? = some PipelineTransform.toNumpy ∧
        (get_transforms config)[j]? =
          some (PipelineTransform.noiseBackdoor tc.kwargs)) ∧
    (∀ tc, config TransformName.pixel_backdoor = some tc → tc.enabled = some false →
      ∀ kw, PipelineTransform.cornerPixelToWhite kw ∉
        get_transforms config) ∧
    (∀ tc, config TransformName.noise = some tc → tc.enabled = some false →
      ∀ kw, PipelineTransform.gaussianNoise kw ∉ get_transforms config) ∧
    (∀ tc, config TransformName.noise_backdoor = some tc → tc.enabled = some false →
      ∀ kw, PipelineTransform.noiseBackdoor kw ∉ get_transforms config) := by
  set a := processTransform config TransformName.pixel_backdoor
    PipelineTransform.cornerPixelToWhite with ha
  set b := processTransform config TransformName.noise PipelineTransform.gaussianNoise
    with hb
  set c := processTransform config TransformName.noise_backdoor
    PipelineTransform.noiseBackdoor with hc0
  have hG : get_transforms config =
      [PipelineTransform.addInfoDict] ++ a ++ [PipelineTransform.toNumpy]
        ++ b ++ c := rfl
  refine ⟨?_, ?_, ?_, ?_, ?_, ?_, ?_⟩
  · rw [hG]
    simp
  · intro tc hcp hep
    have hA : a = [PipelineTransform.cornerPixelToWhite tc.kwargs] := by
      rw [ha]
      exact processTransform_of_present _ hcp hep
    refine ⟨1, 2, by omega, ?_, ?_⟩ <;> simp [hG, hA]
  · intro tc hcn hen
    have hB : b = [PipelineTransform.gaussianNoise tc.kwargs] := by
      rw [hb]
      exact processTransform_of_present _ hcn hen
    have hL : get_transforms config =
        ([PipelineTransform.addInfoDict] ++ a) ++
          (PipelineTransform.toNumpy :: (b ++ c)) := by
      rw [hG]
      simp
    refine ⟨([PipelineTransform.addInfoDict] ++ a).length,
        ([PipelineTransform.addInfoDict] ++ a).length + 1,
        Nat.lt_succ_self _, ?_, ?_⟩
    · rw [hL, getElem?_middle]
    · rw [hL, getElem?_after_middle, hB]
      simp
  · intro tc hcb heb
    have hC : c = [PipelineTransform.noiseBackdoor tc.kwargs] := by
      rw [hc0]
      exact processTransform_of_present _ hcb heb
    have hL : get_transforms config =
        ([PipelineTransform.addInfoDict] ++ a) ++
          (PipelineTransform.toNumpy :: (b ++ c)) := by
      rw [hG]
      simp
    have hL2 : get_transforms config =
        (([PipelineTransform.addInfoDict] ++ a) ++
          (PipelineTransform.toNumpy :: b)) ++
          (PipelineTransform.noiseBackdoor tc.kwargs :: []) := by
      rw [hG, hC]
      simp
    refine ⟨([PipelineTransform.addInfoDict] ++ a).length,
        (([PipelineTransform.addInfoDict] ++ a) ++
          (PipelineTransform.toNumpy :: b)).length, ?_, ?_, ?_⟩
    · simp only [List.length_append, List.length_cons,
        List.length_singleton]
      omega
    · rw [hL, getElem?_middle]
    · rw [hL2, getElem?_middle]
  · intro tc hcp hep kw hmem
    have hA : a = [] := by
      rw [ha]
      exact processTransform_of_disabled _ hcp hep
    rw [hG, hA] at hmem
    simp at hmem
    rcases hmem with h | h
    · obtain ⟨kw2, hk⟩ := mem_processTransform (hb ▸ h)
      exact PipelineTransform.noConfusion hk
    · obtain ⟨kw2, hk⟩ := mem_processTransform (hc0 ▸ h)
      exact PipelineTransform.noConfusion hk
  · intro tc hcn hen kw hmem
    have hB : b = [] := by
      rw [hb]
      exact processTransform_of_disabled _ hcn hen
    rw [hG, hB] at hmem
    simp at hmem
    rcases hmem with h | h
    · obtain ⟨kw2, hk⟩ := mem_processTransform (ha ▸ h)
      exact PipelineTransform.noConfusion hk
    · obtain ⟨kw2, hk⟩ := mem_processTransform (hc0 ▸ h)
      exact PipelineTransform.noConfusion hk
  · intro tc hcb heb kw hmem
    have hC : c = [] := by
      rw [hc0]
      exact processTransform_of_disabled _ hcb heb
    rw [hG, hC] at hmem
    simp at hmem
    rcases hmem with h | h
    · obtain ⟨kw2, hk⟩ := mem_processTransform (ha ▸ h)
      exact PipelineTransform.noConfusion hk
    · obtain ⟨kw2, hk⟩ := mem_processTransform (hb ▸ h)
      exact PipelineTransform.noConfusion hk

/-- Witness for C4 at `configWitness`. -/
theorem get_transforms_pipeline_order_witness :
    (get_transforms configWitness).head? =
        some PipelineTransform.addInfoDict ∧
    (∃ i j : ℕ, i < j ∧
      (get_transforms configWitness)[i]? =
        some (PipelineTransform.cornerPixelToWhite [1/2]) ∧
      (get_transforms configWitness)[j]? =
        some PipelineTransform.toNumpy) ∧
    (∃ i j : ℕ, i < j ∧
      (get_transforms configWitness)[i]? = some PipelineTransform.toNumpy ∧
      (get_transforms configWitness)[j]? =
        some (PipelineTransform.gaussianNoise [3/10])) ∧
    (∀ kw, PipelineTransform.noiseBackdoor kw ∉
      get_transforms configWitness) := by
  have h := get_transforms_pipeline_order configWitness
  refine ⟨h.1, ?_, ?_, ?_⟩
  · exact h.2.1 _ rfl (by decide)
  · exact h.2.2.1 _ rfl (by decide)
  · exact h.2.2.2.2.2.2 _ rfl rfl

theorem clip01_mem_unit (x : ℚ) : 0 ≤ clip01 x ∧ clip01 x ≤ 1 := by
  unfold clip01
  refine ⟨le_max_left 0 _, max_le (by norm_num) (min_le_right x 1)⟩

theorem clipBatch_mem_unit (b : Batch) :
    ∀ row ∈ clipBatch b, ∀ x ∈ row, 0 ≤ x ∧ x ≤ 1 := by
  intro row hrow x hx
  unfold clipBatch at hrow
  obtain ⟨row0, _, hrow0⟩ := List.mem_map.mp hrow
  subst hrow0
  obtain ⟨x0, _, hx0⟩ := List.mem_map.mp hx
  subst hx0
  exact clip01_mem_unit x0

theorem attackLoop_advExamples_bounded (sce : List ℚ → List ℚ → ℚ)
    (gradFn : (Batch → ℚ) → Batch → Batch) (forward : Batch → Batch)
    (cfg : AttackConfig) (batches : List (Batch × List ℕ)) :
    ∀ (st : AttackLoopState) (i : ℕ),
      (∀ b ∈ st.advExamples, ∀ row ∈ b, ∀ x ∈ row, 0 ≤ x ∧ x ≤ 1) →
      ∀ b ∈ (attackLoop sce gradFn forward cfg st i batches).advExamples,
        ∀ row ∈ b, ∀ x ∈ row, 0 ≤ x ∧ x ≤ 1 := by
  induction batches with
  | nil =>
    intro st i h
    exact h
  | cons batch rest ih =>
    obtain ⟨inputs, labels⟩ := batch
    intro st i h
    have h2 : ∀ b ∈ st.advExamples ++
        [clipBatch (fgsm sce gradFn forward inputs labels cfg.eps).1],
        ∀ row ∈ b, ∀ x ∈ row, 0 ≤ x ∧ x ≤ 1 := by
      intro b hb
      rcases List.mem_append.mp hb with hb | hb
      · exact h b hb
      · have hb2 : b =
            clipBatch (fgsm sce gradFn forward inputs labels cfg.eps).1 := by
          simpa using hb
        subst hb2
        exact clipBatch_mem_unit _
    show ∀ b ∈ (attackLoop sce gradFn forward cfg st i
        ((inputs, labels) :: rest)).advExamples, _
    rw [attackLoop]
    split
    · exact h2
    · exact ih _ (i + 1) h2

/-- C8: every adversarial example that the attack saves has all pixel
values in the closed interval [0, 1]: each FGSM batch is clipped before
being appended, so the stored concatenated array never contains
out-of-range colors. -/
theorem attack_saved_examples_in_unit_interval (sce : List ℚ → List ℚ → ℚ)
    (gradFn : (Batch → ℚ) → Batch → Batch) (forward : Batch → Batch)
    (cfg : AttackConfig) (batches : List (Batch × List ℕ))
    (saved : Batch) (stats : AttackStats)
    (h : attack sce gradFn forward cfg batches = Except.ok (saved, stats)) :
    ∀ row ∈ saved, ∀ x ∈ row, 0 ≤ x ∧ x ≤ 1 := by
  unfold attack at h
  dsimp only at h
  split at h
  · exact absurd h (by simp)
  · intro row hrow x hx
    have hsaved : saved = (attackLoop sce gradFn forward cfg
        initialAttackState 0 batches).advExamples.flatten := by
      have := (Except.ok.injEq _ _).mp h
      exact (congrArg Prod.fst this).symm
    rw [hsaved] at hrow
    obtain ⟨b, hb, hrowb⟩ := List.mem_flatten.mp hrow
    exact attackLoop_advExamples_bounded sce gradFn forward cfg batches
      initialAttackState 0 (by intro b hb; simp [initialAttackState] at hb)
      b hb row hrowb x hx

/-- Witness for C8: a one-batch run whose raw FGSM output leaves [0, 1]
(pixel 2 steps to 3) and is clipped to 1 in the saved array. -/
theorem attack_saved_examples_witness :
    (attack (fun _ _ => 0) (fun _ x => x) (fun x => x)
        { eps := 1, maxExamples := 0 } [([[0, 2]], [0])] =
      Except.ok ([[0, 1]],
        { originalLoss := 0, newLoss := 0, newAccuracy := 0, eps := 1,
          numExamples := 1 })) ∧
    ((0 : ℚ) ≤ 1 ∧ (1 : ℚ) ≤ 1) := by
  have hok : attack (fun _ _ => 0) (fun _ x => x) (fun x => x)
      { eps := 1, maxExamples := 0 } [([[0, 2]], [0])] =
      Except.ok ([[0, 1]],
        { originalLoss := 0, newLoss := 0, newAccuracy := 0, eps := 1,
          numExamples := 1 }) := by
    norm_num [attack, attackLoop, initialAttackState, fgsm, addScaledSign,
      sign, clipBatch, clip01, mean, meanBool, argmax, oneHot, min_def,
      max_def]
  refine ⟨hok, ?_⟩
  exact attack_saved_examples_in_unit_interval (fun _ _ => 0) (fun _ x => x)
    (fun x => x) { eps := 1, maxExamples := 0 } [([[0, 2]], [0])]
    [[0, 1]]
    { originalLoss := 0, newLoss := 0, newAccuracy := 0, eps := 1,
      numExamples := 1 } hok [0, 1] (by decide) 1 (by decide)

/-- C9: if, after the batch loop, the mean accuracy on the clipped
adversarial examples exceeds 0.1, the attack raises a RuntimeError; the
result is the bare error, not the `ok` payload that holds the saved
example array and the statistics record, so neither file is written. -/
theorem attack_fails_when_accuracy_above_tenth (sce : List ℚ → List ℚ → ℚ)
    (gradFn : (Batch → ℚ) → Batch → Batch) (forward : Batch → Batch)
    (cfg : AttackConfig) (batches : List (Batch × List ℕ))
    (h : 1/10 < (attackLoop sce gradFn forward cfg initialAttackState 0
      batches).meanNewAccuracy) :
    attack sce gradFn forward cfg batches =
      Except.error (AttackError.attackFailed
        (attackLoop sce gradFn forward cfg initialAttackState 0
          batches).meanNewAccuracy) := by
  unfold attack
  dsimp only
  rw [if_pos h]

/-- Witness for C9: a one-batch run in which the model still classifies
the clipped adversarial example correctly, so the mean accuracy is 1. -/
theorem attack_fails_witness :
    ∃ q : ℚ, attack (fun _ _ => 0) (fun _ x => x) (fun x => x)
        { eps := 1, maxExamples := 0 } [([[0, 2]], [1])] =
      Except.error (AttackError.attackFailed q) := by
  have hacc : (attackLoop (fun _ _ => 0) (fun _ x => x) (fun x => x)
      { eps := 1, maxExamples := 0 } initialAttackState 0
      [([[0, 2]], [1])]).meanNewAccuracy = 1 := by
    norm_num [attackLoop, initialAttackState, fgsm, addScaledSign, sign,
      clipBatch, clip01, mean, meanBool, argmax, oneHot, min_def, max_def,
      List.enumFrom]
  exact ⟨_, attack_fails_when_accuracy_above_tenth (fun _ _ => 0)
    (fun _ x => x) (fun x => x) { eps := 1, maxExamples := 0 }
    [([[0, 2]], [1])] (by rw [hacc]; norm_num)⟩

/-- C10: construction fails with ValueError exactly when the requested
`num_examples` exceeds the number of stored examples; for every
successfully constructed dataset, `len` equals `num_examples`,
`__getitem__ idx` returns the stored example at position idx for every
idx < num_examples, and raises IndexError for every idx >=
num_examples. -/
theorem adversarialExampleDataset_spec {α : Type} (examples : List α)
    (req : Option ℕ) :
    ((∃ d, mkAdversarialExampleDataset examples req = Except.ok d) ↔
      req.getD examples.length ≤ examples.length) ∧
    (∀ d, mkAdversarialExampleDataset examples req = Except.ok d →
      d.len = req.getD examples.length ∧
      (∀ idx, idx < d.len →
        ∃ x, examples[idx]? = some x ∧ d.getItem idx = Except.ok x) ∧
      (∀ idx, d.len ≤ idx →
        d.getItem idx = Except.error (DatasetError.indexError idx))) := by
  constructor
  · constructor
    · rintro ⟨d, hd⟩
      unfold mkAdversarialExampleDataset at hd
      by_cases hlt : examples.length < req.getD examples.length
      · rw [if_pos hlt] at hd
        exact absurd hd (by simp)
      · omega
    · intro hle
      unfold mkAdversarialExampleDataset
      rw [if_neg (by omega)]
      exact ⟨_, rfl⟩
  · intro d hd
    unfold mkAdversarialExampleDataset at hd
    by_cases hlt : examples.length < req.getD examples.length
    · rw [if_pos hlt] at hd
      exact absurd hd (by simp)
    · rw [if_neg hlt] at hd
      have hd2 : d = ⟨examples, req.getD examples.length⟩ := by
        exact ((Except.ok.injEq _ _).mp hd).symm
      subst hd2
      refine ⟨rfl, ?_, ?_⟩
      · intro idx hidx
        have hidx2 : idx < req.getD examples.length := hidx
        have hlen : idx < examples.length := by omega
        refine ⟨examples[idx], List.getElem?_eq_getElem hlen, ?_⟩
        unfold AdversarialExampleDataset.getItem
        dsimp only
        rw [if_neg (by omega : ¬ (req.getD examples.length ≤ idx)),
          List.getElem?_eq_getElem hlen]
      · intro idx hidx
        have hidx2 : req.getD examples.length ≤ idx := hidx
        unfold AdversarialExampleDataset.getItem
        dsimp only
        rw [if_pos hidx2]

/-- Witness for C10 on three stored examples with two requested: the
construction succeeds, the length is 2, index 1 returns the stored
example, index 2 is out of range. -/
theorem adversarialExampleDataset_witness :
    (mkAdversarialExampleDataset [(10 : ℚ), 20, 30] (some 2) =
      Except.ok { examples := [10, 20, 30], numExamples := 2 }) ∧
    ({ examples := [(10 : ℚ), 20, 30], numExamples := 2 :
        AdversarialExampleDataset ℚ }.len = 2) ∧
    ({ examples := [(10 : ℚ), 20, 30], numExamples := 2 :
        AdversarialExampleDataset ℚ }.getItem 1 = Except.ok 20) ∧
    ({ examples := [(10 : ℚ), 20, 30], numExamples := 2 :
        AdversarialExampleDataset ℚ }.getItem 2 =
      Except.error (DatasetError.indexError 2)) := by
  have h := adversarialExampleDataset_spec [(10 : ℚ), 20, 30] (some 2)
  have hok : mkAdversarialExampleDataset [(10 : ℚ), 20, 30] (some 2) =
      Except.ok { examples := [10, 20, 30], numExamples := 2 } := by
    unfold mkAdversarialExampleDataset
    norm_num
  obtain ⟨hlen, hget, herr⟩ := h.2 _ hok
  obtain ⟨x, hx1, hx2⟩ := hget 1 (by decide)
  have h20 : x = 20 := by
    simp only [List.getElem?_cons_succ, List.getElem?_cons_zero] at hx1
    exact ((Option.some.injEq _ _).mp hx1).symm
  refine ⟨hok, hlen, ?_, herr 2 (by decide)⟩
  exact h20 ▸ hx2

end Cupbearer
